import Mathlib

/-!
Verification development for the chess-board SVG renderer in
`src/image/image.go` (package `image`).

The Go source in this snapshot is a mid-refactor state that a Go compiler
would reject (the `svgFormat` methods lack return statements, `Encode` and
`DrawSquare` reference the identifiers `canvas`, `sqWidth`, `sqHeight`,
`x`, `y` that are not in scope, `colorForSquare`/`colorForText` read
`e.dark`/`e.light` although `encoder` has no such fields, and `new` never
stores the resolved `config` in the returned `encoder`).  The embedding
below follows the evident data flow of that source:

* `e.dark` / `e.light` are read as `e.cfg.dark` / `e.cfg.light`, and the
  resolved `config` is carried inside the returned `encoder`, since
  `Encode`, `boardSize`, `colorForSquare` and `colorForText` all read it;
* the stray `canvas`, `sqWidth`, `sqHeight` in `Encode` are read as the
  output canvas and `e.cfg.sqWidth`, `e.cfg.sqHeight`;
* genuinely executable behaviour of the source is kept exactly as
  written, in particular: `Encode` builds a wrapped init error with
  `fmt.Errorf` but does not return it, `Encode` ignores the error result
  of `f.DrawSquare`, and `new` applies every option once to a throwaway
  `&encoder{}` whose nil `marks` map makes a `MarkSquares` option panic
  (assignment to an entry of a nil map).

Output is modelled as the sequence of drawing calls (`Call`) issued to
the sink / canvas, plus the propagated error value.  Collaborator code
from the external `notnil/chess` library (square -> file/rank arithmetic,
piece and color names) is modelled from that library's documented
behaviour: squares are indices 0-63 with `File = sq % 8`,
`Rank = sq / 8` (A1 = 0), and the embedded glyph assets are opaque
documents beginning with the fixed 45x45 SVG header.
-/

namespace ChessImage

/-- A color value, as Go's `color.RGBA` struct: four `uint8` channels.
Channel values are kept as `Nat`; the `% 256` in `rgba32chan` makes the
`uint8` range explicit where the value is consumed. -/
structure RGBA where
  r : Nat
  g : Nat
  b : Nat
  a : Nat
  deriving DecidableEq, Repr

/-- One 16-bit channel of `color.RGBA.RGBA()`: the Go method widens a
`uint8` channel `v` by `v |= v << 8`, i.e. `v * 257` (alpha
premultiplication is not applied, `color.RGBA` is already premultiplied). -/
def rgba32chan (v : Nat) : Nat := (v % 256) * 257

/-- The Go conversion `uint8(float64(r) + 0.5)` applied to a whole number
`r` in `[0, 65535]`: `float64` represents `r` exactly, truncation toward
zero of `r + 0.5` gives back `r`, and the gc compiler's out-of-range
float-to-`uint8` conversion keeps the low byte, i.e. `r % 256`. -/
def goUint8OfFloat (x : Nat) : Nat := x % 256

/-- Lower-case hexadecimal digit (also used for decimal digits below 10):
`0`-`9` then `a`-`f`. -/
def hexDigit (n : Nat) : Char :=
  if n < 10 then Char.ofNat (48 + n) else Char.ofNat (87 + n)

/-- `%02x` of a byte value. -/
def hex02 (n : Nat) : String :=
  String.mk [hexDigit (n / 16 % 16), hexDigit (n % 16)]

/-- `colorToHex` from the source: takes the 16-bit channels of
`c.RGBA()`, converts each with `uint8(float64(ch) + 0.5)` (the `* 1.0` on
the green and blue channels is the identity), and formats `#%02x%02x%02x`.
Alpha is dropped. -/
def colorToHex (c : RGBA) : String :=
  "#" ++ hex02 (goUint8OfFloat (rgba32chan c.r))
      ++ hex02 (goUint8OfFloat (rgba32chan c.g))
      ++ hex02 (goUint8OfFloat (rgba32chan c.b))

/-- `sq.File()` of the external chess library: column index, `sq % 8`
(square A1 is index 0). -/
def fileOf (sq : Nat) : Nat := sq % 8

/-- `sq.Rank()` of the external chess library: row index, `sq / 8`
(rank 1 is index 0). -/
def rankOf (sq : Nat) : Nat := sq / 8

/-- `xyForSquare` from the source: grid column `x = File`, grid row
`y = 7 - Rank`. -/
def xyForSquare (sq : Nat) : Nat × Nat := (fileOf sq, 7 - rankOf sq)

/-- Piece side, `chess.Color` restricted to actual pieces. -/
inductive PColor
  | white
  | black
  deriving DecidableEq, Repr

/-- `chess.PieceType` for actual pieces. -/
inductive PType
  | king
  | queen
  | rook
  | bishop
  | knight
  | pawn
  deriving DecidableEq, Repr

/-- `p.Color().String()` of the external chess library: "w" / "b". -/
def colorStr : PColor → String
  | .white => "w"
  | .black => "b"

/-- `pieceTypeMap` from the source: piece type to glyph letter. -/
def pieceTypeMap : PType → String
  | .king => "K"
  | .queen => "Q"
  | .rook => "R"
  | .bishop => "B"
  | .knight => "N"
  | .pawn => "P"

/-- A square's content: `none` is `chess.NoPiece` (also the zero value a
Go map lookup yields for an absent square). -/
abbrev Piece := Option (PColor × PType)

/-- `b.SquareMap()`: a read-only snapshot, square index to piece. -/
abbrev Board := Nat → Piece

/-- A board with no pieces. -/
def emptyBoard : Board := fun _ => none

/-- A board holding exactly one piece. -/
def boardWith (sq : Nat) (p : PColor × PType) : Board :=
  fun i => if i = sq then some p else none

/-- Decimal digits of a positive number, most significant first; the
first argument is structural fuel (`n` itself suffices). -/
def natToStrAux : Nat → Nat → List Char
  | 0, _ => []
  | fuel + 1, n =>
    if n = 0 then [] else natToStrAux fuel (n / 10) ++ [hexDigit (n % 10)]

/-- Decimal rendering of a `Nat`. -/
def natToStr (n : Nat) : String :=
  if n = 0 then "0" else String.mk (natToStrAux n n)

/-- Decimal rendering of an `Int`, as Go's `%d`. -/
def intToStr (i : Int) : String :=
  if i < 0 then "-" ++ natToStr i.natAbs else natToStr i.natAbs

/-- `r.String()` of the external chess library: rank digit "1".."8" for
rank index 0..7. -/
def rankString (r : Nat) : String := natToStr (r + 1)

/-- `f.String()` of the external chess library: file letter "a".."h". -/
def fileString (f : Nat) : String := String.mk [Char.ofNat (97 + f)]

/-- `config` from the source: static render parameters. -/
structure config where
  sqWidth : Nat
  sqHeight : Nat
  flip : Bool
  light : RGBA
  dark : RGBA
  deriving DecidableEq, Repr

/-- The default baseline built at the top of `new`: 45x45 squares, no
flip, light `RGBA{235, 209, 166, 1}`, dark `RGBA{165, 117, 81, 1}`. -/
def defaultConfig : config :=
  ⟨45, 45, false, ⟨235, 209, 166, 1⟩, ⟨165, 117, 81, 1⟩⟩

/-- The `marks` map, `map[chess.Square]color.Color`, as an association
list; the most recent insertion for a square is found first, giving the
map's last-write-wins behaviour. -/
abbrev Marks := List (Nat × RGBA)

/-- Go map lookup `m[sq]` on a non-nil map. -/
def markLookup : Marks → Nat → Option RGBA
  | [], _ => none
  | (k, v) :: rest, sq => if k = sq then some v else markLookup rest sq

/-- Go map assignment `m[sq] = c` on a non-nil map. -/
def markInsert (m : Marks) (sq : Nat) (c : RGBA) : Marks := (sq, c) :: m

/-- Lookup through a possibly-nil map (reading a nil Go map is allowed
and finds nothing). -/
def markLookupE : Option Marks → Nat → Option RGBA
  | none, _ => none
  | some m, sq => markLookup m sq

/-- `encoder` from the source.  `marks = none` models a nil Go map (the
state of the throwaway `&encoder{}` values built inside `new`).  The
source's `new` never assigns the `cfg` field of the encoder it returns,
yet `boardSize`, `colorForSquare` (as `e.dark`/`e.light`) and `Encode`
all read the resolved configuration through the encoder; the embedding
carries that configuration here, following that evident intent. -/
structure encoder where
  marks : Option Marks
  cfg : config

/-- `colorForSquare`: `(File + Rank)` even gives the dark color, odd the
light color (`e.dark`/`e.light` in the source, resolved via the config). -/
def colorForSquare (e : encoder) (sq : Nat) : RGBA :=
  if (fileOf sq + rankOf sq) % 2 = 0 then e.cfg.dark else e.cfg.light

/-- `colorForText`: the opposite of `colorForSquare`. -/
def colorForText (e : encoder) (sq : Nat) : RGBA :=
  if (fileOf sq + rankOf sq) % 2 = 0 then e.cfg.light else e.cfg.dark

/-- `boardSize`: 8 times the configured square width and height. -/
def boardSize (e : encoder) : Nat × Nat :=
  (e.cfg.sqWidth * 8, e.cfg.sqHeight * 8)

/-- A Go runtime panic observable in the configuration resolver:
assignment to an entry of a nil map. -/
inductive GoPanic
  | nilMapAssignment
  deriving DecidableEq, Repr

/-- The exported option constructors (`Option` in the source; each is a
closure over these data). -/
inductive RenderOption
  | Flip
  | SquareColors (light dark : RGBA)
  | MarkSquares (c : RGBA) (sqs : List Nat)

/-- The loop body of a `MarkSquares` option: `e.marks[sq] = c` for each
square.  Assigning through a nil map panics. -/
def assignMarks (c : RGBA) : Option Marks → List Nat → Except GoPanic (Option Marks)
  | m, [] => .ok m
  | none, _ :: _ => .error .nilMapAssignment
  | some m, sq :: rest => assignMarks c (some (markInsert m sq c)) rest

/-- Application of one option closure to `(cfg, e)`, as in the source:
`Flip` sets `cfg.flip`; `SquareColors` sets `cfg.light` and `cfg.dark`;
`MarkSquares` writes into `e.marks` (and may panic on a nil map). -/
def applyOption : RenderOption → config → encoder → Except GoPanic (config × encoder)
  | .Flip, c, e => .ok ({c with flip := true}, e)
  | .SquareColors l d, c, e => .ok ({c with light := l, dark := d}, e)
  | .MarkSquares mc sqs, c, e =>
    (assignMarks mc e.marks sqs).map (fun m => (c, {e with marks := m}))

/-- The throwaway `&encoder{}` built per iteration of the first loop of
`new`: its `marks` map is nil; its (nil) `cfg` pointer is never read by
any option, so an arbitrary config value stands in for it. -/
def throwawayEncoder : encoder := ⟨none, defaultConfig⟩

/-- The first loop of `new`: `for _, op := range options { op(cfg, &encoder{}) }`.
Only the config mutations survive; each iteration gets a fresh throwaway
encoder with a nil `marks` map. -/
def applyFirstPass : List RenderOption → config → Except GoPanic config
  | [], c => .ok c
  | o :: rest, c =>
    (applyOption o c throwawayEncoder).bind (fun p => applyFirstPass rest p.1)

/-- The second loop of `new`: `for _, op := range options { op(cfg, e) }`
threading the same `cfg` and the real encoder `e`. -/
def applyAll : List RenderOption → config → encoder → Except GoPanic (config × encoder)
  | [], c, e => .ok (c, e)
  | o :: rest, c, e =>
    (applyOption o c e).bind (fun p => applyAll rest p.1 p.2)

/-- `new` from the source: build the default config, apply every option
once against a throwaway encoder, build the real encoder with an empty
(non-nil) `marks` map, apply every option again, and return the encoder.
The result is `Except` because the first pass panics as soon as a
`MarkSquares` option with at least one square runs against the throwaway
encoder's nil map.  (The real encoder's `cfg` field is populated with the
resolved config; see the `encoder` docstring.) -/
def new (opts : List RenderOption) : Except GoPanic encoder :=
  (applyFirstPass opts defaultConfig).bind (fun c1 =>
    (applyAll opts c1 ⟨some [], defaultConfig⟩).bind (fun p =>
      Except.ok ⟨p.2.marks, p.1⟩))

/-- The encoder produced by `new` with no options. -/
def defaultEncoder : encoder := ⟨some [], defaultConfig⟩

/-- The fixed 45x45 header that opens every bundled glyph asset (the
`old` string in `pieceXML`). -/
def svgHeaderOld : String :=
  "<svg xmlns=\"http://www.w3.org/2000/svg\" version=\"1.1\" width=\"45\" height=\"45\">"

/-- The two `viewBox` arguments `(-1 * x, -1 * y)` of the `fmt.Sprintf`
in `pieceXML`. -/
def pieceViewBoxArgs (x y : Nat) : Int × Int :=
  ((-1) * (x : Int), (-1) * (y : Int))

/-- The replacement header built by `pieceXML`:
`<svg ... width="360" height="360" viewBox="%d %d 360 360">`. -/
def svgHeaderNewFor (vx vy : Int) : String :=
  "<svg xmlns=\"http://www.w3.org/2000/svg\" version=\"1.1\" width=\"360\" height=\"360\" viewBox=\""
    ++ intToStr vx ++ " " ++ intToStr vy ++ " 360 360\">"

/-- The asset path `pieces/%s%s.svg` built from the piece's color letter
and type letter. -/
def pieceFileName (p : PColor × PType) : String :=
  "pieces/" ++ colorStr p.1 ++ pieceTypeMap p.2 ++ ".svg"

/-- Modelled from the spec: the bundled glyph assets are opaque embedded
documents, one per (color, type) pair, not present under `src/`; each is
a self-contained SVG fragment whose text begins with the fixed 45x45
header.  The body after that header is opaque; it is modelled as a
placeholder naming the asset. -/
def glyphBody (name : String) : String := "<g>glyph " ++ name ++ "</g></svg>"

/-- Modelled from the spec: `internal.MustAsset(fileName)` returns the
embedded glyph document, which opens with the fixed header. -/
def mustAsset (name : String) : String := svgHeaderOld ++ glyphBody name

/-- `pieceXML` from the source: load the asset for the piece and replace
the first occurrence of the 45x45 header by the 360x360 header whose
`viewBox` offset is `(-1 * x, -1 * y)`.  On the modelled asset the old
header occurs exactly once, at the front, so
`strings.Replace(svgStr, old, new, 1)` yields the new header followed by
the asset body. -/
def pieceXML (x y : Nat) (p : PColor × PType) : String :=
  svgHeaderNewFor (pieceViewBoxArgs x y).1 (pieceViewBoxArgs x y).2
    ++ glyphBody (pieceFileName p)

/-- One drawing call issued during an encode, in issue order:
`init` is `f.Init()` (for the `svgFormat` sink: `canvas.Start` plus the
background rectangle), `drawSquare` is `f.DrawSquare(x, y, c)`,
`markRect` is the highlight `canvas.Rect(x, y, sqWidth, sqHeight, style)`,
`pieceWrite` is `io.WriteString(canvas.Writer, pieceXML(x, y, p))`,
`text` is `canvas.Text(x, y, s, style)`, and `endSVG` is `canvas.End()`. -/
inductive Call
  | init
  | drawSquare (x y : Nat) (c : RGBA)
  | markRect (x y w h : Nat) (style : String)
  | pieceWrite (x y : Nat) (xml : String)
  | text (x y : Nat) (s style : String)
  | endSVG
  deriving DecidableEq, Repr

/-- The label block at the end of the per-square loop body: the rank
digit on file A squares and the file letter on rank 1 squares, both in
the contrasting text color. -/
def textCalls (e : encoder) (i x y : Nat) : List Call :=
  let txtColor := colorForText e i
  (if fileOf i = 0 then
    [Call.text (x + e.cfg.sqWidth * 1 / 20) (y + e.cfg.sqHeight * 5 / 20)
      (rankString (rankOf i)) ("font-size:11px;fill: " ++ colorToHex txtColor)]
  else []) ++
  (if rankOf i = 0 then
    [Call.text (x + e.cfg.sqWidth * 19 / 20)
      (y + e.cfg.sqHeight - e.cfg.sqHeight * 1 / 15)
      (fileString (fileOf i))
      ("text-anchor:end;font-size:11px;fill: " ++ colorToHex txtColor)]
  else [])

/-- The highlight overlay of the loop body: if the square is in the
marks map, one rectangle in the mark color with style
`fill-opacity:0.2`. -/
def markCallList (e : encoder) (i x y : Nat) : List Call :=
  match markLookupE e.marks i with
  | some mc =>
    [Call.markRect x y e.cfg.sqWidth e.cfg.sqHeight
      ("fill-opacity:0.2;fill: " ++ colorToHex mc)]
  | none => []

/-- Failure behaviour of the pluggable sink and of the output writer:
which calls report an error.  `drawSquareErr`/`writeErr` are indexed by
the square being processed. -/
structure SinkErr where
  initErr : Option String
  drawSquareErr : Nat → Option String
  writeErr : Nat → Option String

/-- The body of `Encode`'s `for i := 0; i < 64; i++` loop over the given
square indices.  Faithful to the source: the error result of
`f.DrawSquare` is bound and not checked; the only early return is the
failed `io.WriteString` of a piece document. -/
def runSquares (e : encoder) (b : Board) (se : SinkErr) :
    List Nat → List Call × Option String
  | [] => ([], none)
  | i :: rest =>
    let x := (xyForSquare i).1
    let y := (xyForSquare i).2
    let _dsErr := se.drawSquareErr i
    let head := Call.drawSquare x y (colorForSquare e i) :: markCallList e i x y
    match b i with
    | some p =>
      (match se.writeErr i with
       | some er => (head, some er)
       | none =>
         let tail := runSquares e b se rest
         (head ++ (Call.pieceWrite x y (pieceXML x y p) :: (textCalls e i x y ++ tail.1)),
          tail.2))
    | none =>
      let tail := runSquares e b se rest
      (head ++ (textCalls e i x y ++ tail.1), tail.2)

/-- `Encode` from the source.  `boardSize` is computed first (and not
used afterwards); `f.Init()` is called and, on failure, a wrapped error
is built with `fmt.Errorf` and then dropped (the source has no `return`
in that branch), so execution continues; the 64 squares are processed in
ascending order; `canvas.End()` runs only when no piece write failed. -/
def encodeRun (e : encoder) (b : Board) (se : SinkErr) : List Call × Option String :=
  let _bs := boardSize e
  let _initErrWrapped :=
    Option.map (fun er => "failed to init output formatter: " ++ er) se.initErr
  let tail := runSquares e b se (List.range 64)
  match tail.2 with
  | some er => (Call.init :: tail.1, some er)
  | none => (Call.init :: (tail.1 ++ [Call.endSVG]), none)

/-- A sink/writer that never fails. -/
def noFailSink : SinkErr := ⟨none, fun _ => none, fun _ => none⟩

/-- The call trace of a failure-free encode. -/
def encodeOps (e : encoder) (b : Board) : List Call :=
  (encodeRun e b noFailSink).1

/-- `SVG` from the source: resolve the options with `new` (which can
panic), build the `svgFormat` sink over the writer, and run `Encode`.
The `svgFormat` methods report no errors of their own (the svgo canvas
ignores write errors); the writer's failures surface at the piece
`io.WriteString` calls, per square index `we`. -/
def svgRun (opts : List RenderOption) (b : Board) (we : Nat → Option String) :
    Except GoPanic (List Call × Option String) :=
  (new opts).map (fun e => encodeRun e b ⟨none, fun _ => none, we⟩)

/-- The calls one square contributes to a failure-free encode (the loop
body of `Encode` without early exit). -/
def sqOps (e : encoder) (b : Board) (i : Nat) : List Call :=
  let x := (xyForSquare i).1
  let y := (xyForSquare i).2
  Call.drawSquare x y (colorForSquare e i) ::
    (markCallList e i x y ++
      ((match b i with
        | some p => [Call.pieceWrite x y (pieceXML x y p)]
        | none => []) ++ textCalls e i x y))

/-- Projection of a trace to its square-fill calls. -/
def dsProj : Call → Option (Nat × Nat × RGBA)
  | .drawSquare x y c => some (x, y, c)
  | _ => none

/-- Projection of a trace to the grid cells of its square-fill calls. -/
def dsXYProj : Call → Option (Nat × Nat)
  | .drawSquare x y _ => some (x, y)
  | _ => none

/-- Projection of a trace to its piece-document writes. -/
def pwProj : Call → Option (Nat × Nat × String)
  | .pieceWrite x y s => some (x, y, s)
  | _ => none

/-- Whether a call is a highlight overlay at the given grid cell. -/
def isMarkAt (x y : Nat) : Call → Bool
  | .markRect a b _ _ _ => decide (a = x) && decide (b = y)
  | _ => false

/-- Concatenation of the images of `f` over a list, in order. -/
def concatMap (f : α → List β) : List α → List β
  | [] => []
  | a :: l => f a ++ concatMap f l

/-- An opaque red mark color used in concrete evaluations. -/
def redC : RGBA := ⟨255, 0, 0, 255⟩

/-- An opaque blue mark color used in concrete evaluations. -/
def blueC : RGBA := ⟨0, 0, 255, 255⟩

theorem concatMap_append (f : α → List β) (l₁ l₂ : List α) :
    concatMap f (l₁ ++ l₂) = concatMap f l₁ ++ concatMap f l₂ := by
  induction l₁ with
  | nil => rfl
  | cons a l ih => simp [concatMap, ih]

theorem concatMap_singleton (g : α → β) (l : List α) :
    concatMap (fun a => [g a]) l = l.map g := by
  induction l with
  | nil => rfl
  | cons a l ih => simp [concatMap, ih]

theorem concatMap_eq_nil_of (f : α → List β) (l : List α)
    (h : ∀ a ∈ l, f a = []) : concatMap f l = [] := by
  induction l with
  | nil => rfl
  | cons a l ih =>
    simp only [concatMap, h a (by simp)]
    exact ih (fun a ha => h a (by simp [ha]))

theorem filterMap_concatMap (p : α → Option γ) (f : β → List α) (l : List β) :
    (concatMap f l).filterMap p = concatMap (fun a => (f a).filterMap p) l := by
  induction l with
  | nil => rfl
  | cons a l ih => simp [concatMap, List.filterMap_append, ih]

theorem countP_concatMap (q : α → Bool) (f : β → List α) (l : List β) :
    (concatMap f l).countP q = (l.map (fun a => (f a).countP q)).sum := by
  induction l with
  | nil => rfl
  | cons a l ih => simp [concatMap, List.countP_append, ih]

theorem sum_map_eq_single (g : Nat → Nat) :
    ∀ (l : List Nat), l.Nodup → ∀ i ∈ l, (∀ j ∈ l, j ≠ i → g j = 0) →
      (l.map g).sum = g i := by
  intro l
  induction l with
  | nil => intro _ i hi; cases hi
  | cons a l ih =>
    intro hnd i hi hz
    rcases List.mem_cons.mp hi with rfl | hil
    · have hzl : ∀ j ∈ l, g j = 0 := by
        intro j hj
        exact hz j (List.mem_cons_of_mem _ hj) (fun hji => (List.nodup_cons.mp hnd).1 (hji ▸ hj))
      have : (l.map g).sum = 0 := by
        apply List.sum_eq_zero
        intro x hx
        obtain ⟨j, hj, rfl⟩ := List.mem_map.mp hx
        exact hzl j hj
      simp [this]
    · have hai : a ≠ i := fun hae => (List.nodup_cons.mp hnd).1 (hae ▸ hil)
      have hga : g a = 0 := hz a (List.mem_cons_self a l) hai
      have := ih (List.nodup_cons.mp hnd).2 i hil
        (fun j hj => hz j (List.mem_cons_of_mem _ hj))
      simp [hga, this]

/-- When no piece write fails, the per-square loop runs to completion and
emits exactly the concatenation of the per-square call blocks. -/
theorem runSquares_ok (e : encoder) (b : Board) (se : SinkErr) :
    ∀ l : List Nat, (∀ i ∈ l, (b i).isSome → se.writeErr i = none) →
      runSquares e b se l = (concatMap (sqOps e b) l, none) := by
  intro l
  induction l with
  | nil => intro _; rfl
  | cons i rest ih =>
    intro h
    have hrest : ∀ j ∈ rest, (b j).isSome → se.writeErr j = none :=
      fun j hj => h j (List.mem_cons_of_mem _ hj)
    cases hb : b i with
    | none => simp [runSquares, hb, ih hrest, concatMap, sqOps]
    | some p =>
      have hw : se.writeErr i = none := h i (List.mem_cons_self i rest) (by simp [hb])
      simp [runSquares, hb, hw, ih hrest, concatMap, sqOps]

/-- Shape of a failure-free encode trace. -/
theorem encodeOps_eq (e : encoder) (b : Board) :
    encodeOps e b
      = Call.init :: (concatMap (sqOps e b) (List.range 64) ++ [Call.endSVG]) := by
  have h := runSquares_ok e b noFailSink (List.range 64) (fun i _ _ => rfl)
  simp [encodeOps, encodeRun, h]

theorem textCalls_filterMap_ds (e : encoder) (i x y : Nat) :
    (textCalls e i x y).filterMap dsProj = [] := by
  unfold textCalls
  split_ifs <;> simp [dsProj]

theorem textCalls_filterMap_dsxy (e : encoder) (i x y : Nat) :
    (textCalls e i x y).filterMap dsXYProj = [] := by
  unfold textCalls
  split_ifs <;> simp [dsXYProj]

theorem textCalls_filterMap_pw (e : encoder) (i x y : Nat) :
    (textCalls e i x y).filterMap pwProj = [] := by
  unfold textCalls
  split_ifs <;> simp [pwProj]

theorem markCallList_filterMap_ds (e : encoder) (i x y : Nat) :
    (markCallList e i x y).filterMap dsProj = [] := by
  unfold markCallList
  cases markLookupE e.marks i <;> simp [dsProj]

theorem markCallList_filterMap_dsxy (e : encoder) (i x y : Nat) :
    (markCallList e i x y).filterMap dsXYProj = [] := by
  unfold markCallList
  cases markLookupE e.marks i <;> simp [dsXYProj]

theorem markCallList_filterMap_pw (e : encoder) (i x y : Nat) :
    (markCallList e i x y).filterMap pwProj = [] := by
  unfold markCallList
  cases markLookupE e.marks i <;> simp [pwProj]

/-- Each square block contains exactly one square-fill call, carrying the
square's grid cell and its parity color. -/
theorem sqOps_filterMap_ds (e : encoder) (b : Board) (i : Nat) :
    (sqOps e b i).filterMap dsProj
      = [((xyForSquare i).1, (xyForSquare i).2, colorForSquare e i)] := by
  unfold sqOps
  cases hb : b i <;>
    simp [List.filterMap_append, dsProj, markCallList_filterMap_ds,
      textCalls_filterMap_ds]

theorem sqOps_filterMap_dsxy (e : encoder) (b : Board) (i : Nat) :
    (sqOps e b i).filterMap dsXYProj = [xyForSquare i] := by
  unfold sqOps
  cases hb : b i <;>
    simp [List.filterMap_append, dsXYProj, markCallList_filterMap_dsxy,
      textCalls_filterMap_dsxy]

/-- A square block contains a piece write exactly when the square is
occupied. -/
theorem sqOps_filterMap_pw (e : encoder) (b : Board) (i : Nat) :
    (sqOps e b i).filterMap pwProj
      = (match b i with
         | some p =>
           [((xyForSquare i).1, (xyForSquare i).2,
             pieceXML (xyForSquare i).1 (xyForSquare i).2 p)]
         | none => []) := by
  unfold sqOps
  cases hb : b i <;>
    simp [hb, List.filterMap_append, pwProj, markCallList_filterMap_pw,
      textCalls_filterMap_pw]

/-- The square-fill calls of a failure-free encode, with their colors, in
issue order: one per square index 0..63, ascending. -/
theorem trace_ds (e : encoder) (b : Board) :
    (encodeOps e b).filterMap dsProj
      = (List.range 64).map
          (fun i => ((xyForSquare i).1, (xyForSquare i).2, colorForSquare e i)) := by
  rw [encodeOps_eq]
  simp only [List.filterMap_cons, dsProj, List.filterMap_append,
    filterMap_concatMap]
  simp only [sqOps_filterMap_ds]
  simp [concatMap_singleton]

/-- The grid cells of the square-fill calls, in issue order. -/
theorem trace_dsxy (e : encoder) (b : Board) :
    (encodeOps e b).filterMap dsXYProj = (List.range 64).map xyForSquare := by
  rw [encodeOps_eq]
  simp only [List.filterMap_cons, dsXYProj, List.filterMap_append,
    filterMap_concatMap]
  simp only [sqOps_filterMap_dsxy]
  simp [concatMap_singleton]

/-- A board with no pieces produces no piece writes. -/
theorem trace_pw_empty (e : encoder) :
    (encodeOps e emptyBoard).filterMap pwProj = [] := by
  rw [encodeOps_eq]
  simp only [List.filterMap_cons, pwProj, List.filterMap_append,
    filterMap_concatMap]
  have h : ∀ i ∈ List.range 64, (sqOps e emptyBoard i).filterMap pwProj = [] := by
    intro i _
    simp [sqOps_filterMap_pw, emptyBoard]
  simp [concatMap_eq_nil_of _ _ h]

theorem textCalls_countP_mark (e : encoder) (i x y X Y : Nat) :
    (textCalls e i x y).countP (isMarkAt X Y) = 0 := by
  unfold textCalls
  split_ifs <;> simp [List.countP_cons, isMarkAt]

/-- The overlay calls one square block contributes at cell `(X, Y)`:
one exactly when the square is marked and its own grid cell is `(X, Y)`. -/
theorem sqOps_countP_mark (e : encoder) (b : Board) (i j : Nat)
    (hi : i < 64) (hj : j < 64) :
    (sqOps e b j).countP (isMarkAt (i % 8) (7 - i / 8))
      = if j = i then (if (markLookupE e.marks j).isSome then 1 else 0) else 0 := by
  have hxy : ((j % 8 = i % 8) ∧ (7 - j / 8 = 7 - i / 8)) ↔ j = i := by omega
  unfold sqOps markCallList
  cases hm : markLookupE e.marks j <;> cases hb : b j <;>
    by_cases hji : j = i <;>
    simp_all [List.countP_cons, List.countP_append, isMarkAt,
      textCalls_countP_mark, xyForSquare, fileOf, rankOf]

/-- A failure-free encode emits exactly one overlay at a marked square's
cell and none at an unmarked square's cell. -/
theorem trace_countP_mark (e : encoder) (b : Board) (i : Nat) (hi : i < 64) :
    (encodeOps e b).countP (isMarkAt (i % 8) (7 - i / 8))
      = if (markLookupE e.marks i).isSome then 1 else 0 := by
  rw [encodeOps_eq]
  simp only [List.countP_cons, List.countP_append, countP_concatMap]
  have hsum := sum_map_eq_single
    (fun j => (sqOps e b j).countP (isMarkAt (i % 8) (7 - i / 8)))
    (List.range 64) (List.nodup_range 64) i (List.mem_range.mpr hi)
    (by
      intro j hjl hji
      have hj := List.mem_range.mp hjl
      simp [sqOps_countP_mark e b i j hi hj, hji])
  rw [hsum]
  simp [sqOps_countP_mark e b i i hi hi, isMarkAt]

/-- A marked square's block opens with its square fill immediately
followed by its overlay rectangle. -/
theorem sqOps_marked (e : encoder) (b : Board) (i : Nat) (mc : RGBA)
    (hm : markLookupE e.marks i = some mc) :
    ∃ rest, sqOps e b i
      = Call.drawSquare (xyForSquare i).1 (xyForSquare i).2 (colorForSquare e i) ::
          (Call.markRect (xyForSquare i).1 (xyForSquare i).2
            e.cfg.sqWidth e.cfg.sqHeight
            ("fill-opacity:0.2;fill: " ++ colorToHex mc) :: rest) := by
  refine ⟨((match b i with
      | some p =>
        [Call.pieceWrite (xyForSquare i).1 (xyForSquare i).2
          (pieceXML (xyForSquare i).1 (xyForSquare i).2 p)]
      | none => []) ++ textCalls e i (xyForSquare i).1 (xyForSquare i).2), ?_⟩
  unfold sqOps markCallList
  rw [hm]
  simp

/-- In the whole failure-free trace, a marked square's overlay appears
immediately after that square's base fill. -/
theorem trace_mark_adjacent (e : encoder) (b : Board) (i : Nat) (mc : RGBA)
    (hi : i < 64) (hm : markLookupE e.marks i = some mc) :
    ∃ pre post, encodeOps e b
      = pre ++ (Call.drawSquare (xyForSquare i).1 (xyForSquare i).2
            (colorForSquare e i) ::
          (Call.markRect (xyForSquare i).1 (xyForSquare i).2
            e.cfg.sqWidth e.cfg.sqHeight
            ("fill-opacity:0.2;fill: " ++ colorToHex mc) :: post)) := by
  obtain ⟨s, t, hst⟩ := List.append_of_mem (List.mem_range.mpr hi)
  obtain ⟨rest, hrest⟩ := sqOps_marked e b i mc hm
  refine ⟨Call.init :: concatMap (sqOps e b) s,
    rest ++ (concatMap (sqOps e b) t ++ [Call.endSVG]), ?_⟩
  rw [encodeOps_eq, hst, concatMap_append]
  simp [concatMap, hrest]

/-- Setting the flip flag of a config (what a `Flip` option does). -/
def setFlip (c : config) : config := {c with flip := true}

/-- `setFlip` lifted to the `(config, encoder)` state of option
application. -/
def setFlipP (p : config × encoder) : config × encoder := (setFlip p.1, p.2)

theorem setFlip_idem (c : config) : setFlip (setFlip c) = setFlip c := by
  cases c; rfl

/-- No option reads the flip flag: applying an option to a flipped config
flips the result of applying it to the unflipped config. -/
theorem applyOption_setFlip (o : RenderOption) (c : config) (e : encoder) :
    applyOption o (setFlip c) e = (applyOption o c e).map setFlipP := by
  cases o with
  | Flip => cases c; rfl
  | SquareColors l d => cases c; rfl
  | MarkSquares mc sqs =>
    cases h : assignMarks mc e.marks sqs <;>
      simp [applyOption, h, Except.map, setFlipP]

theorem applyAll_setFlip :
    ∀ (l : List RenderOption) (c : config) (e : encoder),
      applyAll l (setFlip c) e = (applyAll l c e).map setFlipP := by
  intro l
  induction l with
  | nil => intro c e; rfl
  | cons o rest ih =>
    intro c e
    rw [applyAll, applyAll, applyOption_setFlip]
    cases h : applyOption o c e with
    | error p => simp [Except.map, Except.bind]
    | ok p => simp [Except.map, Except.bind, setFlipP, ih]

theorem applyAll_append_flip :
    ∀ (l : List RenderOption) (c : config) (e : encoder),
      applyAll (l ++ [RenderOption.Flip]) c e = (applyAll l c e).map setFlipP := by
  intro l
  induction l with
  | nil => intro c e; rfl
  | cons o rest ih =>
    intro c e
    rw [List.cons_append, applyAll, applyAll]
    cases h : applyOption o c e with
    | error p => simp [Except.map, Except.bind]
    | ok p => simp [Except.map, Except.bind, ih]

theorem applyFirstPass_setFlip :
    ∀ (l : List RenderOption) (c : config),
      applyFirstPass l (setFlip c) = (applyFirstPass l c).map setFlip := by
  intro l
  induction l with
  | nil => intro c; rfl
  | cons o rest ih =>
    intro c
    rw [applyFirstPass, applyFirstPass, applyOption_setFlip]
    cases h : applyOption o c throwawayEncoder with
    | error p => simp [Except.map, Except.bind]
    | ok p => simp [Except.map, Except.bind, setFlipP, ih]

theorem applyFirstPass_append_flip :
    ∀ (l : List RenderOption) (c : config),
      applyFirstPass (l ++ [RenderOption.Flip]) c = (applyFirstPass l c).map setFlip := by
  intro l
  induction l with
  | nil => intro c; rfl
  | cons o rest ih =>
    intro c
    rw [List.cons_append, applyFirstPass, applyFirstPass]
    cases h : applyOption o c throwawayEncoder with
    | error p => simp [Except.map, Except.bind]
    | ok p => simp [Except.map, Except.bind, ih]

/-- Appending a `Flip` option only sets the flip flag of the resolved
configuration (or leaves a panic unchanged). -/
theorem new_append_flip (opts : List RenderOption) :
    new (opts ++ [RenderOption.Flip])
      = (new opts).map (fun en => ⟨en.marks, setFlip en.cfg⟩) := by
  unfold new
  rw [applyFirstPass_append_flip]
  cases h1 : applyFirstPass opts defaultConfig with
  | error p => simp [Except.map, Except.bind]
  | ok c1 =>
    simp only [Except.map, Except.bind]
    rw [applyAll_append_flip, applyAll_setFlip]
    cases h2 : applyAll opts c1 ⟨some [], defaultConfig⟩ with
    | error p => simp [Except.map]
    | ok p => simp [Except.map, setFlipP, setFlip_idem]

/-- The per-square loop never reads the flip flag. -/
theorem runSquares_setFlip (mks : Option Marks) (c : config) (b : Board)
    (se : SinkErr) :
    ∀ l, runSquares ⟨mks, setFlip c⟩ b se l = runSquares ⟨mks, c⟩ b se l := by
  cases c with
  | mk w h f li da =>
    have hc : colorForSquare ⟨mks, setFlip ⟨w, h, f, li, da⟩⟩
        = colorForSquare ⟨mks, ⟨w, h, f, li, da⟩⟩ := rfl
    have hm : markCallList ⟨mks, setFlip ⟨w, h, f, li, da⟩⟩
        = markCallList ⟨mks, ⟨w, h, f, li, da⟩⟩ := rfl
    have ht : textCalls ⟨mks, setFlip ⟨w, h, f, li, da⟩⟩
        = textCalls ⟨mks, ⟨w, h, f, li, da⟩⟩ := rfl
    intro l
    induction l with
    | nil => rfl
    | cons i rest ih =>
      simp only [runSquares, hc, hm, ht, ih]

/-- `Encode` never reads the flip flag. -/
theorem encodeRun_setFlip (mks : Option Marks) (c : config) (b : Board)
    (se : SinkErr) :
    encodeRun ⟨mks, setFlip c⟩ b se = encodeRun ⟨mks, c⟩ b se := by
  unfold encodeRun
  rw [runSquares_setFlip]

/-- `new` with no options yields the default configuration and an empty
mark map. -/
theorem new_nil : new [] = Except.ok defaultEncoder := rfl

/-- Claim C1: in every encode, the fill color passed to each square draw
call is the configured dark color when `(file + rank)` is even and the
configured light color when it is odd, for every configuration (the
parity rule is fixed; only the two color values vary with the config). -/
theorem square_fill_color_parity (k : config) (mks : Option Marks) (b : Board) :
    (encodeOps ⟨mks, k⟩ b).filterMap dsProj
      = (List.range 64).map (fun i =>
          (i % 8, 7 - i / 8,
            if (i % 8 + i / 8) % 2 = 0 then k.dark else k.light)) := by
  rw [trace_ds]
  rfl

/-- Claim C2: the grid coordinates computed for a square are
`x = file index` and `y = 7 - rank index`, so rank 8 (rank index 7) lands
on the top row `y = 0` and rank 1 (rank index 0) on the bottom row
`y = 7`. -/
theorem xy_for_square_orientation (i : Nat) (hi : i < 64) :
    xyForSquare i = (fileOf i, 7 - rankOf i)
    ∧ xyForSquare i = (i % 8, 7 - i / 8)
    ∧ (rankOf i = 7 ↔ (xyForSquare i).2 = 0)
    ∧ (rankOf i = 0 ↔ (xyForSquare i).2 = 7) := by
  refine ⟨rfl, rfl, ?_, ?_⟩ <;>
    simp [xyForSquare, rankOf, fileOf] <;> omega

/-- Witness for claim C2, at square index 12 (e5-file/rank arithmetic:
file 4, rank 1). -/
theorem xy_for_square_orientation_witness :
    12 < 64
    ∧ (xyForSquare 12 = (fileOf 12, 7 - rankOf 12)
       ∧ xyForSquare 12 = (12 % 8, 7 - 12 / 8)
       ∧ (rankOf 12 = 7 ↔ (xyForSquare 12).2 = 0)
       ∧ (rankOf 12 = 0 ↔ (xyForSquare 12).2 = 7)) :=
  ⟨by decide, xy_for_square_orientation 12 (by decide)⟩

/-- Claim C3: every encode visits each square index 0..63 exactly once in
ascending order (the square-fill cells are exactly `xyForSquare` of
0, 1, ..., 63, in that order, for every board); a board with zero pieces
yields exactly 64 square-fill draws and zero piece draws. -/
theorem encode_visits_each_square_once (e : encoder) (b : Board) :
    (encodeOps e b).filterMap dsXYProj = (List.range 64).map xyForSquare
    ∧ ((encodeOps e emptyBoard).filterMap dsProj).length = 64
    ∧ (encodeOps e emptyBoard).filterMap pwProj = [] := by
  refine ⟨trace_dsxy e b, ?_, trace_pw_empty e⟩
  rw [trace_ds]
  simp

/-- The failing sink of claim C4: its `Init` reports an error and every
`DrawSquare` call reports an error; the writer itself never fails. -/
def c4FailingSink : SinkErr :=
  ⟨some "init failure", fun _ => some "draw failure", fun _ => none⟩

/-- Claim C4 (refuting evaluation): run `Encode` against a sink whose
`Init` fails and whose every `DrawSquare` fails.  The encoder returns nil
(`none`) instead of the first error, still issues all 64 square draws,
and still finishes with `canvas.End()`: the source builds the wrapped
init error with `fmt.Errorf` but never returns it, and never checks
`DrawSquare`'s error. -/
theorem encode_ignores_sink_errors :
    (encodeRun defaultEncoder emptyBoard c4FailingSink).2 = none
    ∧ ((encodeRun defaultEncoder emptyBoard c4FailingSink).1.filterMap dsProj).length = 64
    ∧ (encodeRun defaultEncoder emptyBoard c4FailingSink).1.getLast? = some Call.endSVG :=
  ⟨rfl, rfl, rfl⟩

/-- Claim C5 (refuting evaluation): the entry point does not write a
document and return nil-or-write-error for every option list: with a
`MarkSquares` option it panics (assignment to an entry of the throwaway
encoder's nil map) before anything reaches the writer. -/
theorem svg_panics_on_mark_option :
    svgRun [RenderOption.MarkSquares blueC [12]] emptyBoard (fun _ => none)
      = Except.error GoPanic.nilMapAssignment := rfl

/-- Claim C6 (refuting evaluation): with the default configuration and a
white knight on square index 1 (b1, grid cell (1, 7)), the encode emits
exactly one piece write, whose glyph is the correct `pieces/wN.svg`
asset, but the `viewBox` offset it embeds is the negated grid indices
`(-1, -7)`, not the negated pixel coordinates
`(-(1 * 45), -(7 * 45)) = (-45, -315)` of the square's cell. -/
theorem piece_viewbox_offset_not_pixel :
    (encodeOps defaultEncoder (boardWith 1 (PColor.white, PType.knight))).filterMap pwProj
        = [(1, 7, pieceXML 1 7 (PColor.white, PType.knight))]
    ∧ pieceFileName (PColor.white, PType.knight) = "pieces/wN.svg"
    ∧ pieceViewBoxArgs 1 7 = (-1, -7)
    ∧ ((-1 : Int) * (1 * (defaultConfig.sqWidth : Int)),
        (-1 : Int) * (7 * (defaultConfig.sqHeight : Int)))
      = ((-45 : Int), (-315 : Int))
    ∧ pieceViewBoxArgs 1 7 ≠ ((-45 : Int), (-315 : Int)) := by
  refine ⟨rfl, rfl, rfl, by decide, by decide⟩

/-- Claim C7: a square present in the mark map gets exactly one highlight
overlay at its grid cell, in the mark color at `fill-opacity:0.2`,
immediately after that square's base fill; a square absent from the mark
map gets zero overlays at its cell. -/
theorem mark_overlay_exactly_once (k : config) (m : Marks) (b : Board)
    (i : Nat) (hi : i < 64) :
    ((encodeOps ⟨some m, k⟩ b).countP (isMarkAt (i % 8) (7 - i / 8))
        = if (markLookup m i).isSome then 1 else 0)
    ∧ Option.elim (markLookup m i) True (fun mc =>
        ∃ pre post, encodeOps ⟨some m, k⟩ b
          = pre ++ (Call.drawSquare (i % 8) (7 - i / 8)
                (colorForSquare ⟨some m, k⟩ i) ::
              (Call.markRect (i % 8) (7 - i / 8) k.sqWidth k.sqHeight
                ("fill-opacity:0.2;fill: " ++ colorToHex mc) :: post))) := by
  constructor
  · exact trace_countP_mark ⟨some m, k⟩ b i hi
  · cases hm : markLookup m i with
    | none => trivial
    | some mc =>
      exact trace_mark_adjacent ⟨some m, k⟩ b i mc hi hm

/-- Witness for claim C7: default configuration, square index 0 marked
red, empty board. -/
theorem mark_overlay_exactly_once_witness :
    ((encodeOps ⟨some [(0, redC)], defaultConfig⟩ emptyBoard).countP
          (isMarkAt (0 % 8) (7 - 0 / 8))
        = if (markLookup [(0, redC)] 0).isSome then 1 else 0)
    ∧ Option.elim (markLookup [(0, redC)] 0) True (fun mc =>
        ∃ pre post, encodeOps ⟨some [(0, redC)], defaultConfig⟩ emptyBoard
          = pre ++ (Call.drawSquare (0 % 8) (7 - 0 / 8)
                (colorForSquare ⟨some [(0, redC)], defaultConfig⟩ 0) ::
              (Call.markRect (0 % 8) (7 - 0 / 8)
                defaultConfig.sqWidth defaultConfig.sqHeight
                ("fill-opacity:0.2;fill: " ++ colorToHex mc) :: post))) :=
  mark_overlay_exactly_once defaultConfig [(0, redC)] emptyBoard 0 (by decide)

/-- Claim C8: with the default configuration, `colorToHex` renders the
light color `RGBA{235, 209, 166, 1}` as `#ebd1a6` and the dark color
`RGBA{165, 117, 81, 1}` as `#a57551`. -/
theorem default_color_hex :
    colorToHex defaultConfig.light = "#ebd1a6"
    ∧ colorToHex defaultConfig.dark = "#a57551" :=
  ⟨rfl, rfl⟩

/-- Claim C9 (refuting evaluation): configuration resolution does not
complete for every option list: `new` panics on a `MarkSquares` option,
because the first option-application loop runs it against a throwaway
`&encoder{}` whose `marks` map is nil. -/
theorem new_panics_on_mark_option :
    new [RenderOption.MarkSquares redC [0]]
      = Except.error GoPanic.nilMapAssignment := rfl

/-- Claim C10: appending a `Flip` option changes nothing observable in
the render: for every option list, board and writer-failure pattern, the
entry point's draw-call trace and returned error are identical with and
without the appended `Flip`, because only the config's flip flag changes
and no coordinate or drawing computation reads it. -/
theorem flip_option_no_effect (opts : List RenderOption) (b : Board)
    (we : Nat → Option String) :
    svgRun (opts ++ [RenderOption.Flip]) b we = svgRun opts b we := by
  unfold svgRun
  rw [new_append_flip]
  cases h : new opts with
  | error p => rfl
  | ok e =>
    simp only [Except.map]
    exact congrArg Except.ok (encodeRun_setFlip e.marks e.cfg b ⟨none, fun _ => none, we⟩)

end ChessImage
